import Mathlib

/-!
# Verification of the YabLoc tiled cost-map cache and camera particle corrector

Shallow embedding of the C++ sources:
* `src/pcdless_common/include/pcdless_common/hierarchical_cost_map.hpp` (`Area`),
* `src/pcdless_common/src/color.cpp` (`color_scale::rainbow`),
* `src/camera_particle_corrector/src/camera_particle_corrector_core.cpp`
  (`score_convert`, `computeScore`, `absCos`, `transformCloud`),
* `src/particle_filter/corrector_manager/src/init_area.cpp` (`InitArea::is_inside`),
and, where the implementation file is absent from the sources, a model built
from the specification (`HierarchicalCostMap::erase_obsolete` and the tile-store
bookkeeping it acts on).

Floating-point values are modelled as exact rationals where only field
arithmetic and comparisons occur, and as real numbers where `exp`, `log`,
`cos`, `sin` or square roots occur.
-/

namespace YabLoc

/-- Transcription of `std::clamp(v, lo, hi)` over the rationals, transcribed branch by branch:
`v < lo` gives `lo`, `hi < v` gives `hi`, otherwise `v`. -/
def clampQ (lo hi v : ℚ) : ℚ :=
  if v < lo then lo else if hi < v then hi else v

/-- Transcription of `std::clamp(v, lo, hi)` over the reals, transcribed branch by branch. -/
noncomputable def clampR (lo hi v : ℝ) : ℝ :=
  if v < lo then lo else if hi < v then hi else v

/-! ## Area (tile key), from `hierarchical_cost_map.hpp` -/

/-- The `Area` struct: an integer pair `(x, y)` (fields `int x, y;`). -/
structure Area where
  x : ℤ
  y : ℤ
  deriving DecidableEq, Repr

/-- The comparison `operator==(const Area &, const Area &)`:
`one.x == other.x && one.y == other.y`. -/
def Area.beq (one other : Area) : Bool :=
  one.x == other.x && one.y == other.y

instance areaBEq : BEq Area := ⟨Area.beq⟩

instance : LawfulBEq Area where
  eq_of_beq := by
    intro a b h
    obtain ⟨ax, ay⟩ := a
    obtain ⟨bx, bz⟩ := b
    have h2 : Area.beq ⟨ax, ay⟩ ⟨bx, bz⟩ = true := h
    simp only [Area.beq, Bool.and_eq_true, beq_iff_eq] at h2
    simp [h2.1, h2.2]
  rfl := by
    intro a
    obtain ⟨ax, ay⟩ := a
    show Area.beq ⟨ax, ay⟩ ⟨ax, ay⟩ = true
    simp [Area.beq]

/-- The configuration failure raised by `Area::throw_error`
(`std::runtime_error("invalid Area::unit_length")`). -/
inductive ConfigError where
  | invalidUnitLength
  deriving DecidableEq, Repr

/-- The `Area(const Eigen::Vector2f & v)` constructor: it throws via
`throw_error()` when `unit_length_ < 0`, otherwise sets
`x = floor(v.x / unit_length_)` and `y = floor(v.y / unit_length_)`.
`u` is the static `Area::unit_length_`. -/
def Area.make (u : ℚ) (v : ℚ × ℚ) : Except ConfigError Area :=
  if u < 0 then .error .invalidUnitLength
  else .ok ⟨⌊v.1 / u⌋, ⌊v.2 / u⌋⟩

/-- The method `Area::real_scale()`: `{x * unit_length_, y * unit_length_}`. -/
def Area.real_scale (u : ℚ) (a : Area) : ℚ × ℚ :=
  ((a.x : ℚ) * u, (a.y : ℚ) * u)

/-- The method `Area::real_scale_boundary()`: `boundary[0] = real_scale()` and
`boundary[1] = real_scale() + (unit_length_, unit_length_)`. -/
def Area.real_scale_boundary (u : ℚ) (a : Area) : (ℚ × ℚ) × (ℚ × ℚ) :=
  (a.real_scale u, ((a.real_scale u).1 + u, (a.real_scale u).2 + u))

/-! ## `color_scale::rainbow`, from `color.cpp` -/

/-- An RGB colour triple (the `Color` aggregate returned by `color.cpp`). -/
structure Color where
  r : ℚ
  g : ℚ
  b : ℚ
  deriving DecidableEq, Repr

/-- The function `color_scale::rainbow(float value)`: starts from `r = g = b = 1`,
clamps `value` to `[0, 1]`, then overwrites channels by the four
quarter-interval branches exactly as in the source. -/
def rainbow (value : ℚ) : Color :=
  let v := clampQ 0 1 value
  if v < 1/4 then ⟨0, 4 * v, 1⟩
  else if v < 1/2 then ⟨0, 1, 1 + 4 * (1/4 - v)⟩
  else if v < 3/4 then ⟨4 * (v - 1/2), 1, 0⟩
  else ⟨1, 1 + 4 * (3/4 - v), 0⟩

/-! ## `InitArea`, from `init_area.cpp` -/

/-- A boost polygon's outer ring, as the list of its 2D vertices. -/
abbrev Polygon := List (ℚ × ℚ)

/-- The `InitArea` class state: the polygon lists `init_areas_` and
`deinit_areas_`. -/
structure InitArea where
  init_areas : List Polygon
  deinit_areas : List Polygon

/-- The method `InitArea::is_inside(const Eigen::Vector3d & xyz, bool * init_area)` in
state-passing form: `r` is the value of the pointed-to boolean before the
call, and the result is `(return value, value of the boolean after the
call)`. `within` abstracts `boost::geometry::within`, whose implementation is
external to the repository. The source returns `false` immediately when both
polygon lists are empty; otherwise it builds `query = point(xyz.x, xyz.y)`,
scans `init_areas_` (setting `*init_area = true` and returning `true` on a
hit), then `deinit_areas_` (setting `*init_area = false` and returning `true`
on a hit), and finally returns `false` without writing. -/
def InitArea.is_inside (within : ℚ × ℚ → Polygon → Bool) (ia : InitArea)
    (xyz : ℚ × ℚ × ℚ) (r : Bool) : Bool × Bool :=
  if ia.init_areas.isEmpty && ia.deinit_areas.isEmpty then (false, r)
  else
    let query := (xyz.1, xyz.2.1)
    if ia.init_areas.any (fun poly => within query poly) then (true, true)
    else if ia.deinit_areas.any (fun poly => within query poly) then (true, false)
    else (false, r)

/-! ## `transformCloud`, from `camera_particle_corrector_core.cpp` -/

/-- A three-component vector (`Eigen::Vector3f`), as an exact triple. -/
abbrev Vec3 (α : Type) := α × α × α

/-- A `pcl::PointNormal`: the position map (`getVector3fMap`), the normal map
(`getNormalVector3fMap`), and the remaining scalar field (`curvature`),
which the code under study never assigns (it stays default, zero). -/
structure PointNormal (α : Type) where
  point : Vec3 α
  normal : Vec3 α
  curvature : α

/-- An `Eigen::Affine3f`: a 3×3 linear part plus a translation, acting by
`v ↦ L v + t`. -/
structure Affine3 where
  m00 : ℚ
  m01 : ℚ
  m02 : ℚ
  m10 : ℚ
  m11 : ℚ
  m12 : ℚ
  m20 : ℚ
  m21 : ℚ
  m22 : ℚ
  tx : ℚ
  ty : ℚ
  tz : ℚ

/-- Application of an `Eigen::Affine3f` to a vector: `transform * v`. -/
def Affine3.apply (T : Affine3) (v : Vec3 ℚ) : Vec3 ℚ :=
  (T.m00 * v.1 + T.m01 * v.2.1 + T.m02 * v.2.2 + T.tx,
   T.m10 * v.1 + T.m11 * v.2.1 + T.m12 * v.2.2 + T.ty,
   T.m20 * v.1 + T.m21 * v.2.1 + T.m22 * v.2.2 + T.tz)

/-- The method `CameraParticleCorrector::transformCloud(src, transform)`: iterates over
`src` and `push_back`s, for each input `pn`, a fresh `pcl::PointNormal` whose
vector map is `transform * pn.getVector3fMap()` and whose normal map is
`transform * pn.getNormalVector3fMap()`; no other field is assigned. -/
def transformCloud (transform : Affine3) (src : List (PointNormal ℚ)) :
    List (PointNormal ℚ) :=
  src.foldl
    (fun dst pn =>
      dst ++ [{ point := transform.apply pn.point
                normal := transform.apply pn.normal
                curvature := 0 }])
    []

/-! ## `score_convert`, from `camera_particle_corrector_core.cpp` -/

/-- The `score_convert` lambda in `lsdCallback`: with
`k = -std::log(min_prob_) / 2` captured at creation, it clamps `raw` to
`[-max_raw_score_, max_raw_score_]` and returns
`min_prob_ * std::exp(k * (raw / max_raw_score_ + 1))`. -/
noncomputable def score_convert (min_prob max_raw_score raw : ℝ) : ℝ :=
  min_prob * Real.exp ((-Real.log min_prob / 2) *
    (clampR (-max_raw_score) max_raw_score raw / max_raw_score + 1))

/-! ## `computeScore` and `absCos`, from `camera_particle_corrector_core.cpp` -/

/-- Componentwise subtraction of `Eigen::Vector3f`. -/
noncomputable def v3sub (a b : Vec3 ℝ) : Vec3 ℝ :=
  (a.1 - b.1, a.2.1 - b.2.1, a.2.2 - b.2.2)

/-- Componentwise addition of `Eigen::Vector3f`. -/
noncomputable def v3add (a b : Vec3 ℝ) : Vec3 ℝ :=
  (a.1 + b.1, a.2.1 + b.2.1, a.2.2 + b.2.2)

/-- Scalar multiple of an `Eigen::Vector3f`. -/
noncomputable def v3smul (c : ℝ) (v : Vec3 ℝ) : Vec3 ℝ :=
  (c * v.1, c * v.2.1, c * v.2.2)

/-- The Eigen method `.norm()`: the Euclidean length. -/
noncomputable def norm3 (v : Vec3 ℝ) : ℝ :=
  Real.sqrt (v.1 ^ 2 + v.2.1 ^ 2 + v.2.2 ^ 2)

/-- The Eigen method `.normalized()`: division by the Euclidean length (the
degenerate zero-length case, NaN in C++, is the zero vector here and is
never hit by the theorems below). -/
noncomputable def normalize3 (v : Vec3 ℝ) : Vec3 ℝ :=
  (v.1 / norm3 v, v.2.1 / norm3 v, v.2.2 / norm3 v)

/-- The `absCos` lambda of `computeScore`: takes the planar part
`x = (t.x, t.y)` of the tangent, the bearing vector
`y = (cos(deg·π/180), sin(deg·π/180))`, normalizes `x` and returns
`|x.dot(y)|`. The channel value `deg` is used directly as degrees. -/
noncomputable def absCos (t : Vec3 ℝ) (deg : ℝ) : ℝ :=
  let n := Real.sqrt (t.1 ^ 2 + t.2.1 ^ 2)
  |t.1 / n * Real.cos (deg * Real.pi / 180) +
    t.2.1 / n * Real.sin (deg * Real.pi / 180)|

/-- The alignment factor as the specification words it: the stored byte is
first decoded by the factor `360/255` into a bearing in degrees, and only
then compared. Stated from the spec's words, for comparison with the
source's `absCos`. -/
noncomputable def absCosSpecDecoded (t : Vec3 ℝ) (byteVal : ℝ) : ℝ :=
  absCos t (byteVal * (360 / 255))

/-- The tangent `t1` in `computeScore`:
`(pn.getNormalVector3fMap() - pn.getVector3fMap()).normalized()`. -/
noncomputable def segTangent (pn : PointNormal ℝ) : Vec3 ℝ :=
  normalize3 (v3sub pn.normal pn.point)

/-- The length `l1` in `computeScore`:
`(pn.getVector3fMap() - pn.getNormalVector3fMap()).norm()`. -/
noncomputable def segLen (pn : PointNormal ℝ) : ℝ :=
  norm3 (v3sub pn.point pn.normal)

/-- The number of iterations of
`for (float distance = 0; distance < l1; distance += 0.1f)` in exact
arithmetic: iteration `k` (from `0`) runs at `distance = k/10`, and the loop
runs while `distance < l1`, so the count is `⌈10·l1⌉₊` (see the sampling
theorem below, which proves `k < sampleCount l1 ↔ k/10 < l1`). -/
noncomputable def sampleCount (l1 : ℝ) : ℕ :=
  ⌈10 * l1⌉₊

/-- The sample point of iteration `k`:
`p = pn.getVector3fMap() + t1 * distance` at `distance = k/10`. -/
noncomputable def samplePoint (pn : PointNormal ℝ) (k : ℕ) : Vec3 ℝ :=
  v3add pn.point (v3smul ((k : ℝ) / 10) (segTangent pn))

/-- The loop body of `computeScore` for sample `k` of segment `pn`: the
planar squared distance `squared_norm` from the sample to `self_position`,
the gain `exp(-far_weight_gain_ * squared_norm)`, the cost-map read
`v2 = cost_map_.at2(p.topRows(2))`, and the summand
`gain * (absCos(t1, v2[1]) * v2[0] + score_offset_)`. `at2` abstracts
`HierarchicalCostMap::at2`, returning the two byte channels
(intensity, direction) at a planar position. -/
noncomputable def sampleTerm (at2 : ℝ × ℝ → ℕ × ℕ)
    (score_offset far_weight_gain : ℝ) (self_position : Vec3 ℝ)
    (pn : PointNormal ℝ) (k : ℕ) : ℝ :=
  let p := samplePoint pn k
  let squared_norm := (p.1 - self_position.1) ^ 2 + (p.2.1 - self_position.2.1) ^ 2
  let gain := Real.exp (-far_weight_gain * squared_norm)
  let v2 := at2 (p.1, p.2.1)
  gain * (absCos (segTangent pn) (v2.2 : ℝ) * (v2.1 : ℝ) + score_offset)

/-- The method `CameraParticleCorrector::computeScore(lsd_cloud, self_position)`: a
single accumulator `score`, starting at `0`, increased by `sampleTerm`
for every sample of every segment, in loop order. -/
noncomputable def computeScore (at2 : ℝ × ℝ → ℕ × ℕ)
    (score_offset far_weight_gain : ℝ) (lsd_cloud : List (PointNormal ℝ))
    (self_position : Vec3 ℝ) : ℝ :=
  lsd_cloud.foldl
    (fun acc pn =>
      (List.range (sampleCount (segLen pn))).foldl
        (fun acc2 k =>
          acc2 + sampleTerm at2 score_offset far_weight_gain self_position pn k)
        acc)
    0

/-! ## Tile store and eviction

The implementation file of `HierarchicalCostMap` is not among the sources —
only its declaration in `hierarchical_cost_map.hpp` is — so the tile-store
bookkeeping, the store effect of a lookup, and `erase_obsolete` are modelled
from the specification. -/

/-- Modelled from the spec: the Tile Store state of `HierarchicalCostMap`
(whose implementation file is missing from the sources) — `accessed` marks
tiles that exist (`map_accessed_`, kept as the list of keys marked true),
`history` records tile creation order oldest first
(`generated_map_history_`), appended only on first build, and `tiles` holds
the raster keyed by Area (`cost_maps_`, an association list here); `T` is
the tile payload type. -/
structure TileStore (T : Type) where
  accessed : List Area
  history : List Area
  tiles : List (Area × T)

/-- The initial, empty store. -/
def TileStore.empty (T : Type) : TileStore T :=
  ⟨[], [], []⟩

/-- Modelled from the spec: the store effect of one `lookup2`/`at2` call —
compute `area = Area.from_point(p)` (the tiling parameter `u` assumed
valid); on a miss build the tile via `build`, mark it accessed, store it and
append the Area to the creation history; on a hit leave the store
unchanged. -/
def TileStore.lookup {T : Type} (build : Area → T) (u : ℚ) (s : TileStore T)
    (p : ℚ × ℚ) : TileStore T :=
  let a : Area := ⟨⌊p.1 / u⌋, ⌊p.2 / u⌋⟩
  if (a ∈ s.accessed : Prop) then s
  else ⟨a :: s.accessed, s.history ++ [a], (a, build a) :: s.tiles⟩

/-- A sequence of lookups applied to the empty store. -/
def lookupAll {T : Type} (build : Area → T) (u : ℚ) (ps : List (ℚ × ℚ)) :
    TileStore T :=
  ps.foldl (TileStore.lookup build u) (TileStore.empty T)

/-- Modelled from the spec: the loop of `erase_obsolete` /
`evict_obsolete(max_count)` — while `history.length > max_count`, remove the
oldest Area from the front of the history and erase it from the tile map and
the accessed map. -/
def evictLoop {T : Type} (maxCount : ℕ) :
    List Area → List Area → List (Area × T) → TileStore T
  | [], ac, ts => ⟨ac, [], ts⟩
  | a :: rest, ac, ts =>
    if rest.length + 1 > maxCount then
      evictLoop maxCount rest (ac.filter fun x => x ≠ a)
        (ts.filter fun kv => kv.1 ≠ a)
    else ⟨ac, a :: rest, ts⟩

/-- Modelled from the spec: `erase_obsolete`, entered with the current
bookkeeping state. -/
def TileStore.evictObsolete {T : Type} (maxCount : ℕ) (s : TileStore T) :
    TileStore T :=
  evictLoop maxCount s.history s.accessed s.tiles

/-- The bookkeeping invariant of the store: the history has no duplicates
(Areas are appended only on first build) and the key sets of `tiles` and
`accessed` agree with the history up to order. -/
def StoreInv {T : Type} (s : TileStore T) : Prop :=
  s.history.Nodup ∧ (s.tiles.map Prod.fst).Perm s.history ∧
    s.accessed.Perm s.history

/-! ## Basic clamp lemmas -/

theorem clampQ_mem (lo hi v : ℚ) (h : lo ≤ hi) :
    lo ≤ clampQ lo hi v ∧ clampQ lo hi v ≤ hi := by
  unfold clampQ; split_ifs <;> constructor <;> linarith

theorem clampQ_idem (lo hi v : ℚ) (h : lo ≤ hi) :
    clampQ lo hi (clampQ lo hi v) = clampQ lo hi v := by
  unfold clampQ; split_ifs <;> linarith

theorem clampR_mono (lo hi : ℝ) (h : lo ≤ hi) {a b : ℝ} (hab : a ≤ b) :
    clampR lo hi a ≤ clampR lo hi b := by
  unfold clampR; split_ifs <;> linarith

theorem clampR_eq_self (lo hi v : ℝ) (h1 : lo ≤ v) (h2 : v ≤ hi) :
    clampR lo hi v = v := by
  unfold clampR; split_ifs <;> linarith

/-- C1: for all 2D points `p`, `q` whose coordinates have equal floors after
division by `unit_length`, the `Area` constructor yields equal results; and
`operator==` on `Area` holds exactly when both the `x` and `y` components
match. -/
theorem area_tiling_deterministic_and_eq :
    (∀ (u : ℚ) (p q : ℚ × ℚ), ⌊p.1 / u⌋ = ⌊q.1 / u⌋ → ⌊p.2 / u⌋ = ⌊q.2 / u⌋ →
      Area.make u p = Area.make u q) ∧
    (∀ a b : Area, (a == b) = true ↔ a.x = b.x ∧ a.y = b.y) := by
  constructor
  · intro u p q h1 h2
    unfold Area.make
    split
    · rfl
    · simp [h1, h2]
  · intro a b
    simp [BEq.beq, Area.beq]

/-- Witness for C1 at concrete inputs: `p = (1, 1)` and `q = (3/2, 1/2)` fall
in the same tile for `unit_length = 2`, and the constructed Areas are equal. -/
theorem area_tiling_deterministic_and_eq_witness :
    ⌊((1 : ℚ), (1 : ℚ)).1 / 2⌋ = ⌊((3/2 : ℚ), (1/2 : ℚ)).1 / 2⌋ ∧
    ⌊((1 : ℚ), (1 : ℚ)).2 / 2⌋ = ⌊((3/2 : ℚ), (1/2 : ℚ)).2 / 2⌋ ∧
    Area.make 2 (1, 1) = Area.make 2 (3/2, 1/2) :=
  ⟨by norm_num, by norm_num,
    area_tiling_deterministic_and_eq.1 2 (1, 1) (3/2, 1/2) (by norm_num) (by norm_num)⟩

/-- C5 counterexample: with `unit_length = 0` the `Area` constructor does not
raise the configuration error — the guard only fires for negative values, so
construction at zero returns an (ill-defined in C++, here `⟨0, 0⟩`) value
instead of failing. -/
theorem area_make_zero_unit_length_no_error :
    Area.make 0 (1, 1) = Except.ok ⟨0, 0⟩ := by norm_num [Area.make]

/-- C5 amended: constructing an `Area` from a point fails with the
configuration error exactly when `unit_length < 0` (the unset sentinel is
negative), and succeeds for every `unit_length ≥ 0`, including zero. -/
theorem area_make_error_iff (u : ℚ) (v : ℚ × ℚ) :
    (Area.make u v = .error .invalidUnitLength ↔ u < 0) ∧
    (Area.make u v).isOk = decide (0 ≤ u) := by
  unfold Area.make
  split_ifs with h
  · simp [h, not_le.mpr h, Except.isOk, Except.toBool]
  · simp [h, not_lt.mp h, Except.isOk, Except.toBool]

/-- C7: an `Area`'s world-space bounds are the rectangle whose min corner is
`(x * unit_length, y * unit_length)` and whose max corner is the min corner
plus `(unit_length, unit_length)` in each component. -/
theorem area_real_scale_boundary_spec (u : ℚ) (a : Area) :
    (a.real_scale_boundary u).1 = ((a.x : ℚ) * u, (a.y : ℚ) * u) ∧
    (a.real_scale_boundary u).2 =
      ((a.real_scale_boundary u).1.1 + u, (a.real_scale_boundary u).1.2 + u) :=
  ⟨rfl, rfl⟩

/-- C10: every channel of `rainbow` lies in `[0, 1]`, and
`rainbow value = rainbow (clamp value 0 1)` — out-of-range inputs saturate. -/
theorem rainbow_channels_bounded_and_saturating (value : ℚ) :
    (0 ≤ (rainbow value).r ∧ (rainbow value).r ≤ 1 ∧
     0 ≤ (rainbow value).g ∧ (rainbow value).g ≤ 1 ∧
     0 ≤ (rainbow value).b ∧ (rainbow value).b ≤ 1) ∧
    rainbow value = rainbow (clampQ 0 1 value) := by
  obtain ⟨h0, h1⟩ := clampQ_mem 0 1 value (by norm_num)
  constructor
  · simp only [rainbow]
    split_ifs <;> simp only [] <;> refine ⟨?_, ?_, ?_, ?_, ?_, ?_⟩ <;> linarith
  · simp only [rainbow, clampQ_idem 0 1 value (by norm_num)]

theorem foldl_push_eq_map {α β : Type} (f : α → β) (l : List α) (acc : List β) :
    l.foldl (fun dst pn => dst ++ [f pn]) acc = acc ++ l.map f := by
  induction l generalizing acc with
  | nil => simp
  | cons a t ih => simp [ih]

/-- C9: `is_inside` writes through the out-pointer only when it returns true;
whenever it returns false — in particular when both polygon lists are empty —
the pointed-to boolean keeps its prior value. -/
theorem is_inside_frame_effect (within : ℚ × ℚ → Polygon → Bool)
    (ia : InitArea) (xyz : ℚ × ℚ × ℚ) (r : Bool) :
    ((InitArea.is_inside within ia xyz r).1 = false →
      (InitArea.is_inside within ia xyz r).2 = r) ∧
    (ia.init_areas = [] → ia.deinit_areas = [] →
      InitArea.is_inside within ia xyz r = (false, r)) := by
  unfold InitArea.is_inside
  constructor
  · intro h
    dsimp only at h ⊢
    split_ifs at h ⊢ <;> simp_all
  · intro h1 h2
    simp [h1, h2]

/-- Witness for C9: with empty polygon lists the query returns false and the
referenced boolean (initially `true`) is untouched. -/
theorem is_inside_frame_effect_witness :
    (InitArea.is_inside (fun _ _ => false) ⟨[], []⟩ (0, 0, 0) true).2 = true ∧
    InitArea.is_inside (fun _ _ => false) ⟨[], []⟩ (0, 0, 0) true = (false, true) :=
  ⟨(is_inside_frame_effect (fun _ _ => false) ⟨[], []⟩ (0, 0, 0) true).1 (by decide),
   (is_inside_frame_effect (fun _ _ => false) ⟨[], []⟩ (0, 0, 0) true).2 rfl rfl⟩

/-- C8: transforming a line-feature cloud yields a cloud of the same size in
which each feature's point and normal are the transform applied to the
corresponding input point and normal, and every other field is the default
zero — no other feature data is introduced. -/
theorem transformCloud_pointwise (T : Affine3) (src : List (PointNormal ℚ)) :
    (transformCloud T src).length = src.length ∧
    transformCloud T src = src.map (fun pn =>
      { point := T.apply pn.point, normal := T.apply pn.normal, curvature := 0 }) := by
  have h := foldl_push_eq_map (fun pn : PointNormal ℚ =>
    ({ point := T.apply pn.point, normal := T.apply pn.normal,
       curvature := 0 } : PointNormal ℚ)) src []
  unfold transformCloud
  exact ⟨by rw [h]; simp, by rw [h]; simp⟩

/-- C2: `score_convert` clamps the raw score, maps it through
`min_prob * exp(k * (raw / max_raw_score + 1))` with `k = -ln(min_prob)/2`,
and the resulting function is monotone non-decreasing, sends
`-max_raw_score` to `min_prob` and `+max_raw_score` to `1`
(for `0 < min_prob ≤ 1` and `0 < max_raw_score`). -/
theorem score_convert_monotone_and_endpoints (min_prob M : ℝ)
    (hp0 : 0 < min_prob) (hp1 : min_prob ≤ 1) (hM : 0 < M) :
    (∀ a b : ℝ, a ≤ b → score_convert min_prob M a ≤ score_convert min_prob M b) ∧
    score_convert min_prob M (-M) = min_prob ∧
    score_convert min_prob M M = 1 := by
  have hk : 0 ≤ -Real.log min_prob / 2 := by
    have := Real.log_nonpos hp0.le hp1
    linarith
  refine ⟨?_, ?_, ?_⟩
  · intro a b hab
    unfold score_convert
    have hc := clampR_mono (-M) M (by linarith) hab
    gcongr
  · unfold score_convert
    rw [clampR_eq_self _ _ _ le_rfl (by linarith)]
    have hdiv : -M / M + 1 = 0 := by field_simp
    rw [hdiv, mul_zero, Real.exp_zero, mul_one]
  · unfold score_convert
    rw [clampR_eq_self _ _ _ (by linarith) le_rfl, div_self hM.ne']
    have h2 : -Real.log min_prob / 2 * (1 + 1) = -Real.log min_prob := by ring
    rw [h2, Real.exp_neg, Real.exp_log hp0]
    field_simp

/-- Witness for C2 at `min_prob = 1/2`, `max_raw_score = 1`. -/
theorem score_convert_monotone_and_endpoints_witness :
    (0 : ℝ) < 1/2 ∧ (1/2 : ℝ) ≤ 1 ∧ (0 : ℝ) < 1 ∧
    ((∀ a b : ℝ, a ≤ b → score_convert (1/2) 1 a ≤ score_convert (1/2) 1 b) ∧
     score_convert (1/2) 1 (-1) = 1/2 ∧
     score_convert (1/2) 1 1 = 1) :=
  ⟨by norm_num, by norm_num, by norm_num,
    score_convert_monotone_and_endpoints (1/2) 1 (by norm_num) (by norm_num) (by norm_num)⟩

theorem foldl_add_eq_sum {α : Type} (f : α → ℝ) (l : List α) (a : ℝ) :
    l.foldl (fun acc x => acc + f x) a = a + (l.map f).sum := by
  induction l generalizing a with
  | nil => simp
  | cons x t ih => simp only [List.foldl_cons, List.map_cons, List.sum_cons, ih]; ring

theorem sum_map_range (f : ℕ → ℝ) (n : ℕ) :
    ((List.range n).map f).sum = ∑ k ∈ Finset.range n, f k := by
  induction n with
  | zero => simp
  | succ m ih => rw [List.range_succ, Finset.sum_range_succ]; simp [ih]

/-- C3: the scorer visits, for each segment, exactly the sample distances
`k/10 < l1` (a fixed 0.1 world-unit step), and the total raw score is the
sum over segments and samples of `gain * (alignment * intensity +
score_offset)` with `gain = exp(-far_weight_gain * d2)` and `d2` the squared
planar distance from the sample to the candidate pose's translation. -/
theorem computeScore_step_and_accumulation (at2 : ℝ × ℝ → ℕ × ℕ)
    (score_offset far_weight_gain : ℝ) (lsd_cloud : List (PointNormal ℝ))
    (self_position : Vec3 ℝ) :
    computeScore at2 score_offset far_weight_gain lsd_cloud self_position =
      (lsd_cloud.map (fun pn =>
        ∑ k ∈ Finset.range (sampleCount (segLen pn)),
          Real.exp (-far_weight_gain *
              (((samplePoint pn k).1 - self_position.1) ^ 2 +
               ((samplePoint pn k).2.1 - self_position.2.1) ^ 2)) *
            (absCos (segTangent pn)
                (((at2 ((samplePoint pn k).1, (samplePoint pn k).2.1)).2 : ℕ) : ℝ) *
              (((at2 ((samplePoint pn k).1, (samplePoint pn k).2.1)).1 : ℕ) : ℝ) +
             score_offset))).sum ∧
    ∀ l1 : ℝ, ∀ k : ℕ, (k < sampleCount l1 ↔ (k : ℝ) / 10 < l1) := by
  constructor
  · unfold computeScore
    have key : ∀ (l : List (PointNormal ℝ)) (a : ℝ),
        l.foldl
          (fun acc pn =>
            (List.range (sampleCount (segLen pn))).foldl
              (fun acc2 k =>
                acc2 + sampleTerm at2 score_offset far_weight_gain self_position pn k)
              acc)
          a =
        a + (l.map (fun pn =>
          ∑ k ∈ Finset.range (sampleCount (segLen pn)),
            sampleTerm at2 score_offset far_weight_gain self_position pn k)).sum := by
      intro l
      induction l with
      | nil => intro a; simp
      | cons pn t ih =>
        intro a
        simp only [List.foldl_cons, List.map_cons, List.sum_cons]
        rw [foldl_add_eq_sum, sum_map_range, ih]
        ring
    rw [key lsd_cloud 0, zero_add]
    refine congrArg List.sum (List.map_congr_left fun pn _ => ?_)
    refine Finset.sum_congr rfl fun k _ => ?_
    simp only [sampleTerm]
  · intro l1 k
    unfold sampleCount
    rw [Nat.lt_ceil]
    constructor <;> intro h <;> linarith

/-- C4 counterexample: for the planar tangent `(1, 0, 0)` and stored
direction byte `90`, the scorer's alignment is `|cos 90°| = 0`, while the
claim's decoded form `|cos(90·360/255 °)| = |cos(12π/17)|` is nonzero — the
byte is used directly as degrees, not decoded by `360/255`. -/
theorem absCos_differs_from_decoded_at_byte_90 :
    absCos (1, 0, 0) 90 = 0 ∧ absCosSpecDecoded (1, 0, 0) 90 ≠ 0 := by
  constructor
  · unfold absCos
    have h1 : (90 : ℝ) * Real.pi / 180 = Real.pi / 2 := by ring
    norm_num [h1, Real.sqrt_one, Real.cos_pi_div_two]
  · unfold absCosSpecDecoded absCos
    have h2 : ((90 : ℝ) * (360 / 255)) * Real.pi / 180 = 12 * Real.pi / 17 := by
      ring
    norm_num [h2, Real.sqrt_one]
    intro h
    rw [Real.cos_eq_zero_iff] at h
    obtain ⟨n, hn⟩ := h
    have hpi := Real.pi_ne_zero
    have key : (24 : ℝ) * Real.pi = (34 * (n : ℝ) + 17) * Real.pi := by
      field_simp at hn
      linarith
    have h24 : (24 : ℝ) = 34 * (n : ℝ) + 17 := mul_right_cancel₀ hpi key
    have hz : (34 : ℤ) * n + 17 = 24 := by exact_mod_cast h24.symm
    omega

/-- C4 amended: for a unit planar tangent at bearing `φ`, the scorer's
alignment equals the absolute cosine of the angle between that tangent and
the bearing of `deg` degrees, where `deg` is the stored direction channel
value used directly as degrees (no 360/255 rescaling). -/
theorem absCos_eq_abs_cos_of_angle_diff (φ deg : ℝ) :
    absCos (Real.cos φ, Real.sin φ, 0) deg =
      |Real.cos (φ - deg * Real.pi / 180)| := by
  unfold absCos
  have hn : Real.sqrt ((Real.cos φ) ^ 2 + (Real.sin φ) ^ 2) = 1 := by
    rw [Real.cos_sq_add_sin_sq, Real.sqrt_one]
  simp only [hn, div_one, Real.cos_sub]

theorem evictLoop_eq {T : Type} (maxCount : ℕ) :
    ∀ (hist ac : List Area) (ts : List (Area × T)),
      evictLoop maxCount hist ac ts =
        ⟨ac.filter (fun x => x ∉ hist.take (hist.length - maxCount)),
         hist.drop (hist.length - maxCount),
         ts.filter (fun kv => kv.1 ∉ hist.take (hist.length - maxCount))⟩ := by
  intro hist
  induction hist with
  | nil =>
    intro ac ts
    simp [evictLoop]
  | cons a rest ih =>
    intro ac ts
    by_cases hc : rest.length + 1 > maxCount
    · have hn : (a :: rest).length - maxCount = (rest.length - maxCount) + 1 := by
        simp only [List.length_cons]; omega
      simp only [evictLoop]
      rw [if_pos hc, ih, hn, List.take_succ_cons, List.drop_succ_cons]
      congr 1
      · rw [List.filter_filter]
        apply List.filter_congr
        intro x _
        by_cases h1 : x = a <;>
          by_cases h2 : x ∈ rest.take (rest.length - maxCount) <;>
          simp [h1, h2]
      · rw [List.filter_filter]
        apply List.filter_congr
        intro kv _
        by_cases h1 : kv.1 = a <;>
          by_cases h2 : kv.1 ∈ rest.take (rest.length - maxCount) <;>
          simp [h1, h2]
    · have hn : (a :: rest).length - maxCount = 0 := by
        simp only [List.length_cons]; omega
      simp only [evictLoop]
      rw [if_neg hc, hn]
      simp

theorem storeInv_lookup {T : Type} (build : Area → T) (u : ℚ) (s : TileStore T)
    (p : ℚ × ℚ) (h : StoreInv s) : StoreInv (TileStore.lookup build u s p) := by
  obtain ⟨hnd, hkeys, hac⟩ := h
  unfold TileStore.lookup
  dsimp only
  split_ifs with hmem
  · exact ⟨hnd, hkeys, hac⟩
  · have hnotin : (⟨⌊p.1 / u⌋, ⌊p.2 / u⌋⟩ : Area) ∉ s.history := fun hh =>
      hmem (hac.mem_iff.mpr hh)
    refine ⟨?_, ?_, ?_⟩
    · rw [List.nodup_append]
      refine ⟨hnd, List.nodup_singleton _, ?_⟩
      intro x hx hxa
      rw [List.mem_singleton] at hxa
      exact hnotin (hxa ▸ hx)
    · simp only [List.map_cons]
      exact (hkeys.cons _).trans (List.perm_append_singleton _ s.history).symm
    · exact (hac.cons _).trans (List.perm_append_singleton _ s.history).symm

theorem storeInv_lookupAll {T : Type} (build : Area → T) (u : ℚ)
    (ps : List (ℚ × ℚ)) : StoreInv (lookupAll build u ps) := by
  unfold lookupAll
  have key : ∀ (l : List (ℚ × ℚ)) (s : TileStore T), StoreInv s →
      StoreInv (l.foldl (TileStore.lookup build u) s) := by
    intro l
    induction l with
    | nil => intro s hs; exact hs
    | cons p t ih => intro s hs; exact ih _ (storeInv_lookup build u s p hs)
  exact key ps _ ⟨List.nodup_nil, List.Perm.refl _, List.Perm.refl _⟩

theorem length_filter_key {T : Type} (P : Area → Bool) (ts : List (Area × T)) :
    (ts.filter fun kv => P kv.1).length = ((ts.map Prod.fst).filter P).length := by
  rw [List.filter_map]
  simp only [List.length_map]
  rfl

theorem filter_not_mem_take_eq_drop (l : List Area) (n : ℕ) (hnd : l.Nodup) :
    l.filter (fun x => x ∉ l.take n) = l.drop n := by
  have hsplit := List.take_append_drop n l
  set tk := l.take n with htk
  set dr := l.drop n with hdr
  have hdisj : List.Disjoint tk dr := by
    rw [← hsplit] at hnd
    exact (List.nodup_append.mp hnd).2.2
  rw [← hsplit, List.filter_append]
  have h1 : tk.filter (fun x => x ∉ tk) = [] := by
    rw [List.filter_eq_nil_iff]
    intro x hx
    simp [hx]
  have h2 : dr.filter (fun x => x ∉ tk) = dr := by
    rw [List.filter_eq_self]
    intro x hx
    simp only [decide_eq_true_eq]
    intro hxtk
    exact hdisj hxtk hx
  rw [h1, h2, List.nil_append]

/-- C6: after any sequence of lookups followed by an eviction call, the
number of resident tiles is at most `max_tile_count`; the surviving history
is exactly the newest suffix of the creation history, i.e. eviction removes
the residents with the oldest creation times; and every evicted Area is
erased from both the tile map and the accessed map. -/
theorem evict_bound_and_removes_oldest {T : Type} (build : Area → T) (u : ℚ)
    (ps : List (ℚ × ℚ)) (maxCount : ℕ) :
    (TileStore.evictObsolete maxCount (lookupAll build u ps)).tiles.length ≤
        maxCount ∧
    (TileStore.evictObsolete maxCount (lookupAll build u ps)).history =
      (lookupAll build u ps).history.drop
        ((lookupAll build u ps).history.length - maxCount) ∧
    ((lookupAll build u ps).history.take
        ((lookupAll build u ps).history.length - maxCount)).all
      (fun a =>
        ((TileStore.evictObsolete maxCount (lookupAll build u ps)).tiles.all
            fun kv => kv.1 ≠ a) &&
        ((TileStore.evictObsolete maxCount (lookupAll build u ps)).accessed.all
            fun x => x ≠ a)) = true := by
  obtain ⟨hnd, hkeys, hac⟩ := storeInv_lookupAll build u ps
  set s := lookupAll build u ps with hs
  set n := s.history.length - maxCount with hn
  have he : TileStore.evictObsolete maxCount s =
      ⟨s.accessed.filter (fun x => x ∉ s.history.take n),
       s.history.drop n,
       s.tiles.filter (fun kv => kv.1 ∉ s.history.take n)⟩ := by
    unfold TileStore.evictObsolete
    rw [evictLoop_eq]
  refine ⟨?_, ?_, ?_⟩
  · rw [he]
    dsimp only
    rw [length_filter_key (fun b => decide (b ∉ s.history.take n)) s.tiles]
    rw [(hkeys.filter (fun b => decide (b ∉ s.history.take n))).length_eq]
    rw [filter_not_mem_take_eq_drop s.history n hnd, List.length_drop]
    omega
  · rw [he]
  · rw [he]
    dsimp only
    rw [List.all_eq_true]
    intro a ha
    rw [Bool.and_eq_true, List.all_eq_true, List.all_eq_true]
    constructor
    · intro kv hkv
      rw [List.mem_filter] at hkv
      simp only [decide_eq_true_eq] at hkv ⊢
      intro heq
      exact hkv.2 (heq ▸ ha)
    · intro x hx
      rw [List.mem_filter] at hx
      simp only [decide_eq_true_eq] at hx ⊢
      intro heq
      exact hx.2 (heq ▸ ha)

end YabLoc
